import Mathlib

/-!
# Verification of the wakuchin-rs core engine

Shallow embedding of the `wakuchin` core crate (candidate generation,
validation, display conversion, the `run_par`/`run_seq` research entry
points, the hit store, and the result formatter), with theorems checking
the natural-language specification against it.

Rust strings are modelled as `List Char`; `usize` values as `Nat`
(overflow is irrelevant at the sizes involved: every arithmetic operation
in the embedded code is a count bounded by `tries`).  The random number
generator, the compiled regex and the machine's CPU count are external
inputs of the program and are modelled as explicit oracle parameters:
a `shuffle`/`g` candidate oracle, a matcher `m : List Char → Bool`, and
`cpus : Nat`.
-/

namespace Wakuchin

/-- Internal wakuchin W (src/core/src/symbol.rs). -/
def WAKUCHIN_W : Char := 'W'

/-- Internal wakuchin K (src/core/src/symbol.rs). -/
def WAKUCHIN_K : Char := 'K'

/-- Internal wakuchin C (src/core/src/symbol.rs). -/
def WAKUCHIN_C : Char := 'C'

/-- Internal wakuchin N (src/core/src/symbol.rs). -/
def WAKUCHIN_N : Char := 'N'

/-- Internally used wakuchin chars (src/core/src/symbol.rs). -/
def WAKUCHIN : List Char := [WAKUCHIN_W, WAKUCHIN_K, WAKUCHIN_C, WAKUCHIN_N]

/-- External wakuchin W (src/core/src/symbol.rs). -/
def WAKUCHIN_EXTERNAL_W : Char := 'わ'

/-- External wakuchin K (src/core/src/symbol.rs). -/
def WAKUCHIN_EXTERNAL_K : Char := 'く'

/-- External wakuchin C (src/core/src/symbol.rs). -/
def WAKUCHIN_EXTERNAL_C : Char := 'ち'

/-- External wakuchin N (src/core/src/symbol.rs). -/
def WAKUCHIN_EXTERNAL_N : Char := 'ん'

/-- Externally used wakuchin chars (src/core/src/symbol.rs). -/
def WAKUCHIN_EXTERNAL : List Char :=
  [WAKUCHIN_EXTERNAL_W, WAKUCHIN_EXTERNAL_K, WAKUCHIN_EXTERNAL_C,
    WAKUCHIN_EXTERNAL_N]

/-- `gen` before the random shuffle: `WAKUCHIN.iter().cycle().take(4 * times)`
(src/core/src/lib.rs, `gen`).  Taking `4 * times` characters of the cycle of
the four-character list is the concatenation of `times` copies of it. -/
def genBase (times : Nat) : List Char := (List.replicate times WAKUCHIN).flatten

/-- `gen(times)` (src/core/src/lib.rs): build the base multiset and shuffle it
with `rand`'s `SliceRandom::shuffle`.  The random shuffle is modelled as an
oracle `shuffle : List Char → List Char`; `rand` guarantees that its output is
a permutation of its input, which theorems take as a hypothesis. -/
def gen (times : Nat) (shuffle : List Char → List Char) : List Char :=
  shuffle (genBase times)

/-- `validate` (src/core/src/lib.rs): every character is an internal
wakuchin character. -/
def validate (wakuchin : List Char) : Bool :=
  wakuchin.all (fun c => WAKUCHIN.contains c)

/-- `validate_external` (src/core/src/lib.rs): every character is an external
wakuchin character. -/
def validate_external (wakuchin : List Char) : Bool :=
  wakuchin.all (fun c => WAKUCHIN_EXTERNAL.contains c)

/-- `char_to_wakuchin` (src/core/src/convert.rs): internal to external
display character, `'\0'` for anything else. -/
def char_to_wakuchin (c : Char) : Char :=
  if c = WAKUCHIN_W then WAKUCHIN_EXTERNAL_W
  else if c = WAKUCHIN_K then WAKUCHIN_EXTERNAL_K
  else if c = WAKUCHIN_C then WAKUCHIN_EXTERNAL_C
  else if c = WAKUCHIN_N then WAKUCHIN_EXTERNAL_N
  else Char.ofNat 0

/-- `wakuchin_to_char` (src/core/src/convert.rs): external to internal
character, `'\0'` for anything else. -/
def wakuchin_to_char (c : Char) : Char :=
  if c = WAKUCHIN_EXTERNAL_W then WAKUCHIN_W
  else if c = WAKUCHIN_EXTERNAL_K then WAKUCHIN_K
  else if c = WAKUCHIN_EXTERNAL_C then WAKUCHIN_C
  else if c = WAKUCHIN_EXTERNAL_N then WAKUCHIN_N
  else Char.ofNat 0

/-- `chars_to_wakuchin` (src/core/src/convert.rs): map `char_to_wakuchin`
over the string. -/
def chars_to_wakuchin (chars : List Char) : List Char :=
  chars.map char_to_wakuchin

/-- `wakuchin_to_chars` (src/core/src/convert.rs): map `wakuchin_to_char`
over the string. -/
def wakuchin_to_chars (chars : List Char) : List Char :=
  chars.map wakuchin_to_char

/-- `Hit` (src/core/src/result.rs): a matching candidate together with its
worker-local index. -/
structure Hit where
  hit_on : Nat
  chars : List Char
deriving DecidableEq

/-- `HitCount` (src/core/src/result.rs): a candidate text together with how
often it was hit. -/
structure HitCount where
  chars : List Char
  hits : Nat
deriving DecidableEq

/-- `WakuchinResult` (src/core/src/result.rs). -/
structure WakuchinResult where
  tries : Nat
  hits_total : Nat
  hits : List HitCount
  hits_detail : List Hit
deriving DecidableEq

/-- `WakuchinError` (src/core/src/error.rs).  The payload-carrying variants
are modelled without their payloads, which no claim inspects. -/
inductive WakuchinError where
  | Cancelled
  | TimesIsZero
  | UnknownResultOutputFormat
  | WorkerError
  | SerializeError
  | Other
deriving DecidableEq

deriving instance DecidableEq for Except

/-- `HitStore::add` / `SyncHitStore::add` (src/core/src/hit/store.rs):
increment the count stored for `chars`, inserting it with count 1 when
absent.  The map is embedded as an association list; on the key-unique
states the store actually reaches this is exactly the DashMap update. -/
def storeAdd : List (List Char × Nat) → List Char → List (List Char × Nat)
  | [], chars => [(chars, 1)]
  | e :: rest, chars =>
    if e.1 = chars then (e.1, e.2 + 1) :: rest else e :: storeAdd rest chars

/-- Feed a stream of hit texts into the store in order, as the hit-counter
task (src/core/src/hit/counter.rs) and the sequential renderer do. -/
def storeAddAll (init : List (List Char × Nat)) (l : List (List Char)) :
    List (List Char × Nat) :=
  l.foldl storeAdd init

/-- `HitCounterEntry::into_hit_counts` (src/core/src/hit/counter.rs):
turn the store snapshot into `HitCount` values. -/
def hitCounts (store : List (List Char × Nat)) : List HitCount :=
  store.map (fun e => ⟨e.1, e.2⟩)

/-- `get_total_workers` (src/core/src/worker.rs, lines 30–38): the requested
count when it is nonzero, otherwise `available_parallelism()`.  The machine's
logical CPU count is the parameter `cpus`; `available_parallelism` never
returns zero. -/
def get_total_workers (workers cpus : Nat) : Nat :=
  if workers ≠ 0 then workers else cpus

/-- Worker-count resolution of the older revision of `run_par`
(src/core/src/worker/mod.rs, lines 82–96): default to the CPU count, subtract
2 when the count exceeds 5 (to leave room for the render and hit-notifier
tasks), then clamp to `tries`. -/
def resolve_workers_old (workers : Option Nat) (cpus tries : Nat) : Nat :=
  let w := workers.getD cpus
  let w2 := if w > 5 then w - 2 else w
  if tries < w2 then tries else w2

/-- The partitioning rule the spec displays for
`(0..tries).divide_evenly_into(w)`: `lo(k) = ⌊k·tries/W'⌋`.  Kept verbatim
for comparison: it contradicts the spec's own worked example (S3), see the
C3 counterexample below. -/
def lo (tries w k : Nat) : Nat := k * tries / w

/-- The spec's displayed upper bound of worker `k`'s half-open range,
`hi(k) = ⌊(k+1)·tries/W'⌋`. -/
def hi (tries w k : Nat) : Nat := (k + 1) * tries / w

/-- Modelled from the spec: the `divide_range` crate's
`(0..tries).divide_evenly_into(w)` used by both revisions of `run_par` is an
external dependency whose source is not under src/.  The spec's concrete
expectation (S3: `tries = 7`, 3 workers gives `[0,3),[3,5),[5,7)`) pins the
division that hands the first `tries % w` workers one extra element:
worker `k`'s range starts at `k·⌊tries/w⌋ + min(k, tries % w)`. -/
def chunkLo (tries w k : Nat) : Nat := k * (tries / w) + min k (tries % w)

/-- Modelled from the spec: upper bound of worker `k`'s half-open range
under the same division, the start of range `k + 1`. -/
def chunkHi (tries w k : Nat) : Nat := chunkLo tries w (k + 1)

/-- The hit list produced by worker `k` of `run_par`
(src/core/src/worker.rs, lines 228–274): for each local index
`i < chunkHi(k) - chunkLo(k)` generate a candidate, and on a regex match record
`Hit { hit_on = i, chars = candidate }`.  The candidate drawn at local index
`i` is the oracle value `g (lo k + i)`, giving each worker its independent
random stream; `m` is the compiled regex's `is_match`. -/
def workerHits (m : List Char → Bool) (g : Nat → List Char)
    (tries w k : Nat) : List Hit :=
  (List.range (chunkHi tries w k - chunkLo tries w k)).filterMap
    (fun i =>
      if m (g (chunkLo tries w k + i)) then some ⟨i, g (chunkLo tries w k + i)⟩
      else none)

/-- The per-worker hit lists of `run_par`, indexed by worker id order. -/
def workerLocals (m : List Char → Bool) (g : Nat → List Char)
    (tries w : Nat) : List (List Hit) :=
  (List.range w).map (workerHits m g tries w)

/-- The `WakuchinResult` assembled on the normal path of `run_par`
(src/core/src/worker.rs, lines 291–354): `hits_detail` is the concatenation
of the per-worker hit lists in join order, `hits` is the hit-counter store
snapshot after the channel drained (fed one entry per sent hit; counts do
not depend on the channel interleaving, embedded as worker-order
concatenation), and `hits_total` sums the counts. -/
def parResult (tries : Nat) (m : List Char → Bool) (g : Nat → List Char)
    (w : Nat) (order : List Nat) : WakuchinResult :=
  let locals := workerLocals m g tries w
  let hits_detail := (order.map (fun k => locals.getD k [])).flatten
  let hits := hitCounts (storeAddAll [] (locals.flatten.map Hit.chars))
  ⟨tries, (hits.map HitCount.hits).sum, hits, hits_detail⟩

/-- `run_par` (src/core/src/worker.rs, lines 132–355), an uncancelled
error-free run.  Oracles: `m` the regex matcher, `g` the random candidate
stream, `cpus` the logical CPU count, and `order` the order in which
`worker_join_set.join_next()` yields the finished worker tasks — tokio's
`JoinSet` returns tasks in completion order, which an execution does not
constrain beyond being a permutation of the worker ids.  `hits_detail`
is collected in that join order; `hits` is the hit-counter store snapshot
after draining the hit channel, whose counts are order-independent, so the
channel's interleaving is embedded as the worker-order concatenation of the
sent hits. -/
def run_par (tries times : Nat) (m : List Char → Bool) (g : Nat → List Char)
    (workers cpus : Nat) (order : List Nat) :
    Except WakuchinError WakuchinResult :=
  if tries = 0 then .ok ⟨0, 0, [], []⟩
  else if times = 0 then .error .TimesIsZero
  else .ok (parResult tries m g (get_total_workers workers cpus) order)

/-- The `WakuchinResult` assembled on the normal (uncancelled, error-free)
path of `run_seq` (src/core/src/worker.rs, lines 464–519): generate `tries`
candidates in order (`g` is the random stream), collect
`Hit { hit_on = i, chars }` for each match into `hits_detail`, feed each
matching text to the renderer's hit counter in the same order, and sum the
counts for `hits_total`. -/
def seqResult (tries : Nat) (m : List Char → Bool)
    (g : Nat → List Char) : WakuchinResult :=
  let hits_detail := ((List.range tries).map g).enum.filterMap
    (fun p => if m p.2 then some ⟨p.1, p.2⟩ else none)
  let hits := hitCounts (storeAddAll [] (hits_detail.map Hit.chars))
  ⟨tries, (hits.map HitCount.hits).sum, hits, hits_detail⟩

/-- `run_seq` (src/core/src/worker.rs, lines 423–520): the two validation
branches, then the normal-path result. -/
def run_seq (tries times : Nat) (m : List Char → Bool)
    (g : Nat → List Char) : Except WakuchinError WakuchinResult :=
  if tries = 0 then .ok ⟨0, 0, [], []⟩
  else if times = 0 then .error .TimesIsZero
  else .ok (seqResult tries m g)

/-- One invocation of the user-supplied progress handler
(src/core/src/handlers.rs). -/
inductive HandlerEvent where
  | beforeStart
  | handle (allDone : Bool)
  | afterFinish
  | onAccidentialStop
deriving DecidableEq

/-- The sequence of progress-handler invocations performed by `run_seq`
(src/core/src/worker.rs): nothing at all on the `tries == 0` and
`times == 0` early returns, otherwise `before_start`, the throttled
`Processing` renders (the `Render` type these go through is a revision not
under src/; modelled from the spec, §4.7 sequential contract: the handler
runs only when the interval has elapsed, which the time oracle `tick`
reports for each of the `tries + 1` `render_progress` calls), the final
`Done` render with `all_done = true`, and `after_finish`. -/
def seqTrace (tries times : Nat) (tick : Nat → Bool) : List HandlerEvent :=
  if tries = 0 then []
  else if times = 0 then []
  else
    HandlerEvent.beforeStart ::
      (((List.range (tries + 1)).filterMap
          (fun i => if tick i then some (HandlerEvent.handle false) else none)) ++
        [HandlerEvent.handle true, HandlerEvent.afterFinish])

/-- The sequence of progress-handler invocations performed by `run_par`
(src/core/src/worker.rs): nothing on the two early returns, otherwise
`before_start`, then the aggregator task's loop (`ThreadRender`, a revision
not under src/; modelled from the spec §4.7: `n` interval ticks each invoke
`handle` with `all_done = false`, drain-complete invokes it once with
`all_done = true`), then `after_finish`. -/
def parTrace (tries times n : Nat) : List HandlerEvent :=
  if tries = 0 then []
  else if times = 0 then []
  else
    HandlerEvent.beforeStart ::
      (List.replicate n (HandlerEvent.handle false) ++
        [HandlerEvent.handle true, HandlerEvent.afterFinish])

/-- JSON values, for the result formatter's wire format. -/
inductive Json where
  | str (s : List Char)
  | num (n : Nat)
  | arr (elems : List Json)
  | obj (fields : List (String × Json))

/-- The field names of a JSON object, in order. -/
def fieldNames : Json → List String
  | .obj fields => fields.map (fun f => f.1)
  | _ => []

/-- Look up a field of a JSON object by name. -/
def objField (j : Json) (name : String) : Option Json :=
  match j with
  | .obj fields => (fields.find? (fun f => f.1 == name)).map (fun f => f.2)
  | _ => none

/-- Serialization of `Hit` (src/core/src/result.rs): serde's derived
`Serialize` emits the struct's fields in declaration order under their
field names, `hit_on` then `chars`. -/
def serializeHit (h : Hit) : Json :=
  .obj [("hit_on", .num h.hit_on), ("chars", .str h.chars)]

/-- Serialization of `HitCount` (src/core/src/result.rs): fields `chars`
then `hits`. -/
def serializeHitCount (c : HitCount) : Json :=
  .obj [("chars", .str c.chars), ("hits", .num c.hits)]

/-- Serialization of `WakuchinResult` (src/core/src/result.rs): fields
`tries`, `hits_total`, `hits`, `hits_detail` in declaration order, as pinned
by the exact expected output in the `out` doctest. -/
def serializeWakuchinResult (r : WakuchinResult) : Json :=
  .obj [("tries", .num r.tries), ("hits_total", .num r.hits_total),
    ("hits", .arr (r.hits.map serializeHitCount)),
    ("hits_detail", .arr (r.hits_detail.map serializeHit))]

/-- The JSON branch of `out` (src/core/src/result.rs, lines 200–231):
`serde_json::to_string(result)`, embedded at the level of the JSON value it
renders.  `serde_json` cannot fail on these field types, so the branch
always returns `Ok`. -/
def out_json (result : WakuchinResult) : Except WakuchinError Json :=
  .ok (serializeWakuchinResult result)

lemma genBase_count (times : Nat) (c : Char) :
    (genBase times).count c = times * (WAKUCHIN.count c) := by
  induction times with
  | zero => simp [genBase]
  | succ n ih =>
    simp only [genBase, List.replicate_succ, List.flatten_cons,
      List.count_append] at *
    rw [ih]
    ring

lemma genBase_length (times : Nat) : (genBase times).length = 4 * times := by
  induction times with
  | zero => simp [genBase]
  | succ n ih =>
    simp only [genBase, List.replicate_succ, List.flatten_cons,
      List.length_append] at *
    rw [ih]
    simp [WAKUCHIN]
    ring

lemma genBase_validate (times : Nat) : validate (genBase times) = true := by
  rw [validate, List.all_eq_true]
  intro x hx
  rw [genBase, List.mem_flatten] at hx
  obtain ⟨l, hl, hxl⟩ := hx
  rw [List.eq_of_mem_replicate hl] at hxl
  simpa using hxl

/-- C7: for every `times ≥ 1` and every outcome of the random shuffle
(any permutation of the base list), `gen times` has length `4 * times`,
contains each of W, K, C, N exactly `times` times, and satisfies
`validate`. -/
theorem gen_balanced (times : Nat) (shuffle : List Char → List Char)
    (htimes : 1 ≤ times) (hperm : ∀ l, (shuffle l).Perm l) :
    (gen times shuffle).length = 4 * times ∧
    (gen times shuffle).count WAKUCHIN_W = times ∧
    (gen times shuffle).count WAKUCHIN_K = times ∧
    (gen times shuffle).count WAKUCHIN_C = times ∧
    (gen times shuffle).count WAKUCHIN_N = times ∧
    validate (gen times shuffle) = true := by
  have hp := hperm (genBase times)
  have hcount : ∀ c : Char, (gen times shuffle).count c = (genBase times).count c :=
    fun c => hp.count_eq c
  have hW : WAKUCHIN.count WAKUCHIN_W = 1 := by decide
  have hK : WAKUCHIN.count WAKUCHIN_K = 1 := by decide
  have hC : WAKUCHIN.count WAKUCHIN_C = 1 := by decide
  have hN : WAKUCHIN.count WAKUCHIN_N = 1 := by decide
  refine ⟨?_, ?_, ?_, ?_, ?_, ?_⟩
  · rw [gen, hp.length_eq, genBase_length]
  · rw [hcount, genBase_count, hW, Nat.mul_one]
  · rw [hcount, genBase_count, hK, Nat.mul_one]
  · rw [hcount, genBase_count, hC, Nat.mul_one]
  · rw [hcount, genBase_count, hN, Nat.mul_one]
  · rw [validate, List.all_eq_true]
    intro x hx
    have hx' : x ∈ genBase times := hp.mem_iff.mp hx
    have := genBase_validate times
    rw [validate, List.all_eq_true] at this
    exact this x hx'

/-- C7 witness: instantiation at `times = 1` with the reversing shuffle. -/
theorem gen_balanced_witness :
    (gen 1 List.reverse).length = 4 * 1 ∧
    (gen 1 List.reverse).count WAKUCHIN_W = 1 ∧
    (gen 1 List.reverse).count WAKUCHIN_K = 1 ∧
    (gen 1 List.reverse).count WAKUCHIN_C = 1 ∧
    (gen 1 List.reverse).count WAKUCHIN_N = 1 ∧
    validate (gen 1 List.reverse) = true :=
  gen_balanced 1 List.reverse (by decide) (fun l => l.reverse_perm)

lemma char_roundtrip_internal (c : Char) (hc : c ∈ WAKUCHIN) :
    wakuchin_to_char (char_to_wakuchin c) = c := by
  simp only [WAKUCHIN, List.mem_cons, List.mem_singleton] at hc
  rcases hc with h | h | h | h | h
  all_goals first
    | (subst h; decide)
    | exact absurd h (by simp)

lemma char_roundtrip_external (c : Char) (hc : c ∈ WAKUCHIN_EXTERNAL) :
    char_to_wakuchin (wakuchin_to_char c) = c := by
  simp only [WAKUCHIN_EXTERNAL, List.mem_cons, List.mem_singleton] at hc
  rcases hc with h | h | h | h | h
  all_goals first
    | (subst h; decide)
    | exact absurd h (by simp)

/-- C8: the display transforms are mutually inverse on valid strings, and on
any character outside the respective alphabet the per-character transform
yields the null character. -/
theorem convert_roundtrip :
    (∀ s : List Char, validate s = true →
      wakuchin_to_chars (chars_to_wakuchin s) = s) ∧
    (∀ t : List Char, validate_external t = true →
      chars_to_wakuchin (wakuchin_to_chars t) = t) ∧
    (∀ c : Char, c ∉ WAKUCHIN → char_to_wakuchin c = Char.ofNat 0) ∧
    (∀ c : Char, c ∉ WAKUCHIN_EXTERNAL → wakuchin_to_char c = Char.ofNat 0) := by
  refine ⟨?_, ?_, ?_, ?_⟩
  · intro s hs
    rw [validate, List.all_eq_true] at hs
    rw [wakuchin_to_chars, chars_to_wakuchin, List.map_map]
    conv_rhs => rw [← List.map_id s]
    refine List.map_congr_left (fun c hc => ?_)
    exact char_roundtrip_internal c (by simpa using hs c hc)
  · intro t ht
    rw [validate_external, List.all_eq_true] at ht
    rw [chars_to_wakuchin, wakuchin_to_chars, List.map_map]
    conv_rhs => rw [← List.map_id t]
    refine List.map_congr_left (fun c hc => ?_)
    exact char_roundtrip_external c (by simpa using ht c hc)
  · intro c hc
    have h1 : c ≠ WAKUCHIN_W := fun h => hc (by simp [WAKUCHIN, h])
    have h2 : c ≠ WAKUCHIN_K := fun h => hc (by simp [WAKUCHIN, h])
    have h3 : c ≠ WAKUCHIN_C := fun h => hc (by simp [WAKUCHIN, h])
    have h4 : c ≠ WAKUCHIN_N := fun h => hc (by simp [WAKUCHIN, h])
    simp [char_to_wakuchin, h1, h2, h3, h4]
  · intro c hc
    have h1 : c ≠ WAKUCHIN_EXTERNAL_W := fun h => hc (by simp [WAKUCHIN_EXTERNAL, h])
    have h2 : c ≠ WAKUCHIN_EXTERNAL_K := fun h => hc (by simp [WAKUCHIN_EXTERNAL, h])
    have h3 : c ≠ WAKUCHIN_EXTERNAL_C := fun h => hc (by simp [WAKUCHIN_EXTERNAL, h])
    have h4 : c ≠ WAKUCHIN_EXTERNAL_N := fun h => hc (by simp [WAKUCHIN_EXTERNAL, h])
    simp [wakuchin_to_char, h1, h2, h3, h4]

/-- C8 witness: the round trips and the null-character fallback evaluated on
concrete inputs. -/
theorem convert_roundtrip_witness :
    wakuchin_to_chars (chars_to_wakuchin ['W', 'K', 'C', 'N']) = ['W', 'K', 'C', 'N'] ∧
    chars_to_wakuchin (wakuchin_to_chars ['ん', 'ち']) = ['ん', 'ち'] ∧
    char_to_wakuchin 'a' = Char.ofNat 0 ∧
    wakuchin_to_char 'a' = Char.ofNat 0 :=
  ⟨convert_roundtrip.1 ['W', 'K', 'C', 'N'] (by decide),
   convert_roundtrip.2.1 ['ん', 'ち'] (by decide),
   convert_roundtrip.2.2.1 'a' (by decide),
   convert_roundtrip.2.2.2 'a' (by decide)⟩

/-- C10: both validators accept the empty string — the alphabet check is a
vacuously true universal quantification over the characters. -/
theorem validate_empty_string :
    validate [] = true ∧ validate_external [] = true := by decide

lemma chunkLo_mono (tries w k : Nat) : chunkLo tries w k ≤ chunkLo tries w (k + 1) := by
  rw [chunkLo, chunkLo, Nat.succ_mul]
  generalize tries % w = r
  generalize tries / w = q
  generalize k * q = a
  omega

lemma sum_chunk_sizes_eq_chunkLo (tries w n : Nat) :
    ((List.range n).map (fun k => chunkHi tries w k - chunkLo tries w k)).sum =
      chunkLo tries w n := by
  induction n with
  | zero => simp [chunkLo]
  | succ n ih =>
    rw [List.range_succ, List.map_append, List.sum_append, ih]
    have h1 : chunkLo tries w n ≤ chunkLo tries w (n + 1) := chunkLo_mono tries w n
    have h2 : chunkHi tries w n = chunkLo tries w (n + 1) := rfl
    simp only [List.map_cons, List.map_nil, List.sum_cons, List.sum_nil]
    omega

lemma sum_chunk_sizes (tries w : Nat) (hw : 1 ≤ w) :
    ((List.range w).map (fun k => chunkHi tries w k - chunkLo tries w k)).sum =
      tries := by
  rw [sum_chunk_sizes_eq_chunkLo, chunkLo]
  have hmod : tries % w < w := Nat.mod_lt tries (by omega)
  have hdm := Nat.div_add_mod tries w
  have hmin : min w (tries % w) = tries % w := by omega
  rw [hmin]
  omega

lemma chunk_size_bounds (tries w k : Nat) :
    tries / w ≤ chunkHi tries w k - chunkLo tries w k ∧
      chunkHi tries w k - chunkLo tries w k ≤ tries / w + 1 := by
  rw [chunkHi, chunkLo, chunkLo, Nat.succ_mul]
  generalize tries % w = r
  generalize tries / w = q
  generalize k * q = a
  omega

/-- C3 counterexample: the claim's two halves are inconsistent with each
other — at `tries = 7`, `W' = 3` the rule `lo(k) = ⌊k·tries/W'⌋`,
`hi(k) = ⌊(k+1)·tries/W'⌋` produces the ranges `[0,2), [2,4), [4,7)`,
not `[0,3), [3,5), [5,7)` as the claim (and the spec's scenario S3) also
demands. -/
theorem run_par_partition_counterexample :
    (List.range 3).map (fun k => (lo 7 3 k, hi 7 3 k)) =
      [(0, 2), (2, 4), (4, 7)] ∧
    (List.range 3).map (fun k => (lo 7 3 k, hi 7 3 k)) ≠
      [(0, 3), (3, 5), (5, 7)] := by decide

/-- C3 amended: the partition of `[0, tries)` handed to the `W'` workers of
`run_par` (modelled from the spec's concrete expectation, the `divide_range`
crate being an external dependency: the first `tries mod W'` workers get the
larger ranges, `lo(k) = k·⌊tries/W'⌋ + min(k, tries mod W')`) is contiguous,
its sizes sum to `tries` and differ pairwise by at most 1, and `tries = 7`
with 3 workers yields the ranges `[0,3)`, `[3,5)`, `[5,7)`. -/
theorem run_par_partition_amended (tries w : Nat) (hw : 1 ≤ w) :
    (∀ k, chunkLo tries w (k + 1) = chunkHi tries w k) ∧
    ((List.range w).map (fun k => chunkHi tries w k - chunkLo tries w k)).sum =
      tries ∧
    (∀ j k, chunkHi tries w j - chunkLo tries w j ≤
      (chunkHi tries w k - chunkLo tries w k) + 1) ∧
    (List.range 3).map (fun k => (chunkLo 7 3 k, chunkHi 7 3 k)) =
      [(0, 3), (3, 5), (5, 7)] := by
  refine ⟨fun k => rfl, sum_chunk_sizes tries w hw, fun j k => ?_, by decide⟩
  have hbj := chunk_size_bounds tries w j
  have hbk := chunk_size_bounds tries w k
  omega

/-- C3 witness: the amended partition statement instantiated at `tries = 7`,
three workers. -/
theorem run_par_partition_witness :
    chunkLo 7 3 1 = chunkHi 7 3 0 ∧
    ((List.range 3).map (fun k => chunkHi 7 3 k - chunkLo 7 3 k)).sum = 7 ∧
    chunkHi 7 3 0 - chunkLo 7 3 0 ≤ (chunkHi 7 3 1 - chunkLo 7 3 1) + 1 ∧
    (List.range 3).map (fun k => (chunkLo 7 3 k, chunkHi 7 3 k)) =
      [(0, 3), (3, 5), (5, 7)] :=
  ⟨(run_par_partition_amended 7 3 (by decide)).1 0,
   (run_par_partition_amended 7 3 (by decide)).2.1,
   (run_par_partition_amended 7 3 (by decide)).2.2.1 0 1,
   (run_par_partition_amended 7 3 (by decide)).2.2.2⟩

lemma storeSum_storeAdd (s : List (List Char × Nat)) (c : List Char) :
    ((storeAdd s c).map (fun e => e.2)).sum =
      (s.map (fun e => e.2)).sum + 1 := by
  induction s with
  | nil => simp [storeAdd]
  | cons e rest ih =>
    by_cases h : e.1 = c
    · simp only [storeAdd, if_pos h, List.map_cons, List.sum_cons]
      omega
    · simp only [storeAdd, if_neg h, List.map_cons, List.sum_cons, ih]
      omega

lemma storeSum_storeAddAll (l : List (List Char)) (init : List (List Char × Nat)) :
    ((storeAddAll init l).map (fun e => e.2)).sum =
      (init.map (fun e => e.2)).sum + l.length := by
  induction l generalizing init with
  | nil => simp [storeAddAll]
  | cons c rest ih =>
    rw [storeAddAll, List.foldl_cons, ← storeAddAll, ih, storeSum_storeAdd,
      List.length_cons]
    omega

lemma hitCounts_sum (s : List (List Char × Nat)) :
    ((hitCounts s).map HitCount.hits).sum = (s.map (fun e => e.2)).sum := by
  rw [hitCounts, List.map_map]
  rfl

lemma get_total_workers_pos (workers cpus : Nat) (hc : 1 ≤ cpus) :
    1 ≤ get_total_workers workers cpus := by
  rw [get_total_workers]
  split <;> omega

lemma workerLocals_getD (m : List Char → Bool) (g : Nat → List Char)
    (tries w k : Nat) (hk : k < w) :
    (workerLocals m g tries w).getD k [] = workerHits m g tries w k := by
  rw [workerLocals, List.getD_eq_getElem?_getD, List.getElem?_map,
    List.getElem?_range hk]
  rfl

lemma order_flatten_length (m : List Char → Bool) (g : Nat → List Char)
    (tries w : Nat) (order : List Nat)
    (ho : order.Perm (List.range w)) :
    ((order.map (fun k => (workerLocals m g tries w).getD k [])).flatten).length =
      ((workerLocals m g tries w).flatten).length := by
  rw [List.length_flatten, List.length_flatten]
  have hO : List.map List.length
        (order.map (fun k => (workerLocals m g tries w).getD k [])) =
      order.map (fun k => ((workerLocals m g tries w).getD k []).length) := by
    rw [List.map_map]
    rfl
  have hL : List.map List.length (workerLocals m g tries w) =
      (List.range w).map (fun k => (workerHits m g tries w k).length) := by
    rw [workerLocals, List.map_map]
    rfl
  rw [hO, hL]
  have hperm := (ho.map
    (fun k => ((workerLocals m g tries w).getD k []).length)).sum_eq
  refine hperm.trans (congrArg List.sum (List.map_congr_left (fun k hk => ?_)))
  rw [workerLocals_getD m g tries w k (List.mem_range.mp hk)]

lemma workerHits_length_le (m : List Char → Bool) (g : Nat → List Char)
    (tries w k : Nat) :
    (workerHits m g tries w k).length ≤ chunkHi tries w k - chunkLo tries w k := by
  rw [workerHits]
  exact (List.length_filterMap_le _ _).trans (by rw [List.length_range])

lemma workerLocals_flatten_length_le (m : List Char → Bool)
    (g : Nat → List Char) (tries w : Nat) (hw : 1 ≤ w) :
    ((workerLocals m g tries w).flatten).length ≤ tries := by
  rw [List.length_flatten, workerLocals, List.map_map]
  have hcomp : List.map (List.length ∘ workerHits m g tries w) (List.range w) =
      (List.range w).map (fun k => (workerHits m g tries w k).length) := rfl
  rw [hcomp]
  calc ((List.range w).map (fun k => (workerHits m g tries w k).length)).sum
      ≤ ((List.range w).map (fun k => chunkHi tries w k - chunkLo tries w k)).sum := by
        refine List.sum_le_sum (fun k _ => ?_)
        exact workerHits_length_le m g tries w k
    _ = tries := sum_chunk_sizes tries w hw

lemma parResult_total_eq_detail (tries : Nat) (m : List Char → Bool)
    (g : Nat → List Char) (w : Nat) (order : List Nat)
    (ho : order.Perm (List.range w)) :
    (parResult tries m g w order).hits_total =
      (parResult tries m g w order).hits_detail.length := by
  show ((hitCounts (storeAddAll []
      (((workerLocals m g tries w).flatten).map Hit.chars))).map
        HitCount.hits).sum =
    ((order.map (fun k => (workerLocals m g tries w).getD k [])).flatten).length
  rw [hitCounts_sum, storeSum_storeAddAll, List.length_map, List.map_nil,
    List.sum_nil, Nat.zero_add, order_flatten_length m g tries w order ho]

lemma seqResult_total_eq_detail (tries : Nat) (m : List Char → Bool)
    (g : Nat → List Char) :
    (seqResult tries m g).hits_total =
      (seqResult tries m g).hits_detail.length := by
  show ((hitCounts (storeAddAll []
      ((seqResult tries m g).hits_detail.map Hit.chars))).map
        HitCount.hits).sum = _
  rw [hitCounts_sum, storeSum_storeAddAll, List.length_map, List.map_nil,
    List.sum_nil, Nat.zero_add]

/-- C1: every normal (uncancelled, error-free) completed run of `run_par` or
`run_seq` with `tries ≥ 1` and `times ≥ 1` returns a `WakuchinResult` with
`hits_total` equal to the sum of the per-text hit counts and to the length of
`hits_detail`, and `hits_detail` no longer than `tries`. -/
theorem run_hit_conservation (tries times workers cpus : Nat)
    (m : List Char → Bool) (g : Nat → List Char) (order : List Nat)
    (htries : 1 ≤ tries) (htimes : 1 ≤ times) (hcpus : 1 ≤ cpus)
    (horder : order.Perm (List.range (get_total_workers workers cpus))) :
    (∃ r, run_par tries times m g workers cpus order = .ok r ∧
      r.hits_total = (r.hits.map HitCount.hits).sum ∧
      r.hits_total = r.hits_detail.length ∧
      r.hits_detail.length ≤ tries) ∧
    (∃ r, run_seq tries times m g = .ok r ∧
      r.hits_total = (r.hits.map HitCount.hits).sum ∧
      r.hits_total = r.hits_detail.length ∧
      r.hits_detail.length ≤ tries) := by
  have h0 : tries ≠ 0 := by omega
  have h1 : times ≠ 0 := by omega
  have hw : 1 ≤ get_total_workers workers cpus :=
    get_total_workers_pos workers cpus hcpus
  constructor
  · refine ⟨parResult tries m g (get_total_workers workers cpus) order,
      by rw [run_par, if_neg h0, if_neg h1], rfl,
      parResult_total_eq_detail tries m g _ order horder, ?_⟩
    show ((order.map _).flatten).length ≤ tries
    rw [order_flatten_length m g tries _ order horder]
    exact workerLocals_flatten_length_le m g tries _ hw
  · refine ⟨seqResult tries m g,
      by rw [run_seq, if_neg h0, if_neg h1], rfl,
      seqResult_total_eq_detail tries m g, ?_⟩
    show (List.filterMap _ _).length ≤ tries
    refine (List.length_filterMap_le _ _).trans ?_
    rw [List.enum_length, List.length_map, List.length_range]

/-- C1 witness: instantiation at `tries = 2`, `times = 1`, two workers on one
CPU, joined in the order `[1, 0]`, with an always-matching regex. -/
theorem run_hit_conservation_witness :
    (∃ r, run_par 2 1 (fun _ => true) (fun _ => [WAKUCHIN_W]) 2 1 [1, 0] = .ok r ∧
      r.hits_total = (r.hits.map HitCount.hits).sum ∧
      r.hits_total = r.hits_detail.length ∧
      r.hits_detail.length ≤ 2) ∧
    (∃ r, run_seq 2 1 (fun _ => true) (fun _ => [WAKUCHIN_W]) = .ok r ∧
      r.hits_total = (r.hits.map HitCount.hits).sum ∧
      r.hits_total = r.hits_detail.length ∧
      r.hits_detail.length ≤ 2) :=
  run_hit_conservation 2 1 2 1 (fun _ => true) (fun _ => [WAKUCHIN_W]) [1, 0]
    (by decide) (by decide) (by decide) (by decide)

/-- C2 counterexample: with `tries = 0`, `run_par` and `run_seq` take the
zero-tries early return before the `times` check (worker.rs lines 140–151 and
430–441), so `times == 0` does not produce the `TimesIsZero` error there. -/
theorem times_zero_counterexample :
    run_seq 0 0 (fun _ => true) (fun _ => []) = .ok ⟨0, 0, [], []⟩ ∧
    run_par 0 0 (fun _ => true) (fun _ => []) 1 1 [] = .ok ⟨0, 0, [], []⟩ ∧
    run_seq 0 0 (fun _ => true) (fun _ => []) ≠ .error .TimesIsZero ∧
    run_par 0 0 (fun _ => true) (fun _ => []) 1 1 [] ≠ .error .TimesIsZero := by
  decide

/-- C2 amended: for every `tries ≥ 1` and every regex and handler, calling
`run_par` or `run_seq` with `times == 0` returns the `TimesIsZero` error and
the progress handler is never invoked (with `tries == 0` the zero-tries
early return fires first, also without invoking the handler). -/
theorem times_zero_rejection (tries workers cpus n : Nat)
    (m : List Char → Bool) (g : Nat → List Char) (order : List Nat)
    (tick : Nat → Bool) (htries : 1 ≤ tries) :
    run_par tries 0 m g workers cpus order = .error .TimesIsZero ∧
    run_seq tries 0 m g = .error .TimesIsZero ∧
    parTrace tries 0 n = [] ∧
    seqTrace tries 0 tick = [] := by
  have h0 : tries ≠ 0 := by omega
  refine ⟨?_, ?_, ?_, ?_⟩
  · rw [run_par, if_neg h0, if_pos rfl]
  · rw [run_seq, if_neg h0, if_pos rfl]
  · rw [parTrace, if_neg h0, if_pos rfl]
  · rw [seqTrace, if_neg h0, if_pos rfl]

/-- C2 witness: `tries = 3` with concrete oracles. -/
theorem times_zero_rejection_witness :
    run_par 3 0 (fun _ => true) (fun _ => []) 2 1 [0, 1] = .error .TimesIsZero ∧
    run_seq 3 0 (fun _ => true) (fun _ => []) = .error .TimesIsZero ∧
    parTrace 3 0 4 = [] ∧
    seqTrace 3 0 (fun _ => false) = [] :=
  times_zero_rejection 3 2 1 4 (fun _ => true) (fun _ => []) [0, 1]
    (fun _ => false) (by decide)

/-- C4 counterexample: the claimed resolution `W' = min(tries, W)` fails on
both revisions.  At `tries = 1`, `W = 2` the current `get_total_workers`
(worker.rs) keeps the requested 2 workers, never clamping to `tries`;
at `tries = 100`, `W = 8` the older revision (worker/mod.rs) resolves to
`8 - 2 = 6`, not `min(100, 8) = 8`. -/
theorem worker_count_counterexample :
    get_total_workers 2 8 ≠ min 1 2 ∧
    (workerLocals (fun _ => true) (fun _ => [WAKUCHIN_W]) 1
      (get_total_workers 2 8)).length ≠ min 1 2 ∧
    resolve_workers_old (some 8) 8 100 ≠ min 100 8 := by decide

/-- C4 amended: `run_par` in worker.rs resolves the worker count to exactly
the requested `W` when `W > 0` and to the logical CPU count when `W` is 0,
with no clamp to `tries`; the older revision in worker/mod.rs subtracts 2
from the requested (or auto-detected) count when it exceeds 5 and clamps the
result to `tries`. -/
theorem worker_count_amended (workers cpus tries : Nat) (req : Option Nat) :
    (workers ≠ 0 → get_total_workers workers cpus = workers) ∧
    (workers = 0 → get_total_workers workers cpus = cpus) ∧
    resolve_workers_old req cpus tries =
      min tries
        (if req.getD cpus > 5 then req.getD cpus - 2 else req.getD cpus) := by
  refine ⟨fun h => ?_, fun h => ?_, ?_⟩
  · rw [get_total_workers, if_pos h]
  · rw [get_total_workers, if_neg (by omega)]
  · rw [resolve_workers_old]
    split <;> split <;> omega

/-- C4 witness: the amended resolution evaluated at concrete counts. -/
theorem worker_count_amended_witness :
    get_total_workers 3 8 = 3 ∧
    get_total_workers 0 8 = 8 ∧
    resolve_workers_old (some 8) 8 10 = min 10 6 :=
  ⟨(worker_count_amended 3 8 10 (some 8)).1 (by decide),
   (worker_count_amended 0 8 10 (some 8)).2.1 rfl,
   (worker_count_amended 0 8 10 (some 8)).2.2⟩

lemma workerHits_pairwise (m : List Char → Bool) (g : Nat → List Char)
    (tries w k : Nat) :
    (workerHits m g tries w k).Pairwise (fun a b => a.hit_on < b.hit_on) := by
  rw [workerHits]
  refine List.Pairwise.filterMap _ (fun a a' hlt b hb b' hb' => ?_)
    (List.pairwise_lt_range _)
  by_cases hm : m (g (chunkLo tries w k + a))
  · by_cases hm' : m (g (chunkLo tries w k + a'))
    · rw [if_pos hm, Option.mem_some_iff] at hb
      rw [if_pos hm', Option.mem_some_iff] at hb'
      rw [← hb, ← hb']
      exact hlt
    · rw [if_neg hm'] at hb'
      exact absurd hb' (Option.not_mem_none b')
  · rw [if_neg hm] at hb
    exact absurd hb (Option.not_mem_none b)

/-- C5 counterexample: `run_par` in worker.rs collects `hits_detail` with
`worker_join_set.join_next()`, which yields worker results in task
completion order.  A run of `tries = 2` with two workers whose tasks
complete in the order `[1, 0]` produces `hits_detail` that is not the
worker-id-order concatenation of the per-worker hit lists. -/
theorem run_par_order_counterexample :
    [1, 0].Perm (List.range (get_total_workers 2 8)) ∧
    run_par 2 1 (fun _ => true)
        (fun i => if i = 0 then [WAKUCHIN_W] else [WAKUCHIN_K]) 2 8 [1, 0] =
      .ok ⟨2, 2, [⟨[WAKUCHIN_W], 1⟩, ⟨[WAKUCHIN_K], 1⟩],
        [⟨0, [WAKUCHIN_K]⟩, ⟨0, [WAKUCHIN_W]⟩]⟩ ∧
    ([⟨0, [WAKUCHIN_K]⟩, ⟨0, [WAKUCHIN_W]⟩] : List Hit) ≠
      (workerLocals (fun _ => true)
        (fun i => if i = 0 then [WAKUCHIN_W] else [WAKUCHIN_K]) 2
        (get_total_workers 2 8)).flatten := by decide

/-- C5 amended: in every normal completed run of `run_par`, `hits_detail` is
the concatenation of the per-worker hit lists in worker task completion
order — which equals worker-id order exactly when the tasks are joined in
spawn order, but is not otherwise constrained — and within each worker's
list the `hit_on` indices are strictly increasing. -/
theorem run_par_order (tries times workers cpus : Nat)
    (m : List Char → Bool) (g : Nat → List Char) (order : List Nat)
    (htries : 1 ≤ tries) (htimes : 1 ≤ times)
    (horder : order.Perm (List.range (get_total_workers workers cpus))) :
    ∃ r, run_par tries times m g workers cpus order = .ok r ∧
      r.hits_detail = (order.map (fun k =>
        (workerLocals m g tries (get_total_workers workers cpus)).getD k [])).flatten ∧
      (∀ k, (workerHits m g tries (get_total_workers workers cpus) k).Pairwise
        (fun a b => a.hit_on < b.hit_on)) ∧
      (order = List.range (get_total_workers workers cpus) →
        r.hits_detail =
          (workerLocals m g tries (get_total_workers workers cpus)).flatten) := by
  have h0 : tries ≠ 0 := by omega
  have h1 : times ≠ 0 := by omega
  refine ⟨parResult tries m g (get_total_workers workers cpus) order,
    by rw [run_par, if_neg h0, if_neg h1], rfl,
    fun k => workerHits_pairwise m g tries _ k, fun heq => ?_⟩
  subst heq
  show ((List.range _).map
    (fun k => (workerLocals m g tries _).getD k [])).flatten = _
  conv_rhs => rw [workerLocals]
  refine congrArg List.flatten (List.map_congr_left (fun k hk => ?_))
  rw [workerLocals_getD m g tries _ k (List.mem_range.mp hk)]

/-- C5 witness: two workers joined in spawn order `[0, 1]`. -/
theorem run_par_order_witness :
    ∃ r, run_par 2 1 (fun _ => true) (fun _ => [WAKUCHIN_C]) 2 8 [0, 1] = .ok r ∧
      r.hits_detail = ([0, 1].map (fun k =>
        (workerLocals (fun _ => true) (fun _ => [WAKUCHIN_C]) 2
          (get_total_workers 2 8)).getD k [])).flatten ∧
      (∀ k, (workerHits (fun _ => true) (fun _ => [WAKUCHIN_C]) 2
        (get_total_workers 2 8) k).Pairwise (fun a b => a.hit_on < b.hit_on)) ∧
      ([0, 1] = List.range (get_total_workers 2 8) →
        r.hits_detail =
          (workerLocals (fun _ => true) (fun _ => [WAKUCHIN_C]) 2
            (get_total_workers 2 8)).flatten) :=
  run_par_order 2 1 2 8 (fun _ => true) (fun _ => [WAKUCHIN_C]) [0, 1]
    (by decide) (by decide) (by decide)

/-- C6: with `tries == 0`, `run_par` and `run_seq` return
`Ok` of the empty `WakuchinResult` immediately and the progress handler is
never invoked, for every `times` — including `times == 0`. -/
theorem zero_tries_identity (times workers cpus n : Nat)
    (m : List Char → Bool) (g : Nat → List Char) (order : List Nat)
    (tick : Nat → Bool) :
    run_par 0 times m g workers cpus order = .ok ⟨0, 0, [], []⟩ ∧
    run_seq 0 times m g = .ok ⟨0, 0, [], []⟩ ∧
    parTrace 0 times n = [] ∧
    seqTrace 0 times tick = [] := by
  refine ⟨?_, ?_, ?_, ?_⟩
  · rw [run_par, if_pos rfl]
  · rw [run_seq, if_pos rfl]
  · rw [parTrace, if_pos rfl]
  · rw [seqTrace, if_pos rfl]

/-- C9: the JSON branch of `out` returns `Ok` of a JSON object with exactly
the fields `tries`, `hits_total`, `hits`, `hits_detail` in this order, where
every element of `hits` is an object with exactly the fields `chars`, `hits`
and every element of `hits_detail` is an object with exactly the fields
`hit_on`, `chars`. -/
theorem out_json_fields (r : WakuchinResult) :
    ∃ j, out_json r = .ok j ∧
      fieldNames j = ["tries", "hits_total", "hits", "hits_detail"] ∧
      objField j "tries" = some (.num r.tries) ∧
      objField j "hits_total" = some (.num r.hits_total) ∧
      objField j "hits" = some (.arr (r.hits.map serializeHitCount)) ∧
      objField j "hits_detail" = some (.arr (r.hits_detail.map serializeHit)) ∧
      (∀ c ∈ r.hits, fieldNames (serializeHitCount c) = ["chars", "hits"]) ∧
      (∀ h ∈ r.hits_detail, fieldNames (serializeHit h) = ["hit_on", "chars"]) := by
  refine ⟨serializeWakuchinResult r, rfl, rfl, rfl, rfl, rfl, rfl,
    fun c _ => rfl, fun h _ => rfl⟩

/-- C9 witness: the field shape evaluated on the example result from the
`out` doctest in src/core/src/result.rs. -/
theorem out_json_fields_witness :
    ∃ j, out_json ⟨10, 3,
        [⟨['W', 'K', 'C', 'N'], 2⟩, ⟨['W', 'K', 'N', 'C'], 1⟩],
        [⟨0, ['W', 'K', 'C', 'N']⟩, ⟨1, ['W', 'K', 'N', 'C']⟩,
          ⟨2, ['W', 'K', 'C', 'N']⟩]⟩ = .ok j ∧
      fieldNames j = ["tries", "hits_total", "hits", "hits_detail"] ∧
      objField j "tries" = some (.num 10) ∧
      objField j "hits_total" = some (.num 3) ∧
      objField j "hits" = some (.arr
        ([⟨['W', 'K', 'C', 'N'], 2⟩, ⟨['W', 'K', 'N', 'C'], 1⟩].map
          serializeHitCount)) ∧
      objField j "hits_detail" = some (.arr
        ([⟨0, ['W', 'K', 'C', 'N']⟩, ⟨1, ['W', 'K', 'N', 'C']⟩,
          ⟨2, ['W', 'K', 'C', 'N']⟩].map serializeHit)) ∧
      (∀ c ∈ ([⟨['W', 'K', 'C', 'N'], 2⟩, ⟨['W', 'K', 'N', 'C'], 1⟩] :
          List HitCount),
        fieldNames (serializeHitCount c) = ["chars", "hits"]) ∧
      (∀ h ∈ ([⟨0, ['W', 'K', 'C', 'N']⟩, ⟨1, ['W', 'K', 'N', 'C']⟩,
          ⟨2, ['W', 'K', 'C', 'N']⟩] : List Hit),
        fieldNames (serializeHit h) = ["hit_on", "chars"]) :=
  out_json_fields ⟨10, 3,
    [⟨['W', 'K', 'C', 'N'], 2⟩, ⟨['W', 'K', 'N', 'C'], 1⟩],
    [⟨0, ['W', 'K', 'C', 'N']⟩, ⟨1, ['W', 'K', 'N', 'C']⟩,
      ⟨2, ['W', 'K', 'C', 'N']⟩]⟩

end Wakuchin
